import Mathlib

/-!
Verification development for the WisprFlow STT bridge
(`src/agent/wisprflow_stt.py`).

Bytes are modelled as `Nat` values below 256, byte strings as `List Nat`.
Wall-clock time for the time-boxed chunker is modelled in "byte units":
one unit is the duration of one byte of 16 kHz mono 16-bit PCM
(1/32000 s), so that under real-time frame arrival the monotonic clock
advances by exactly the byte length of each resampled frame.  The
5-second chunk threshold is therefore 160000 units.

External effects (HTTP responses, WebSocket messages) are inputs of the
model; Python exceptions that can escape a function are recorded in a
`raised` field, while paths the source wraps in a catch-all
`except Exception` are modelled as normal returns.
-/

/-- Ceiling division on naturals: `ceilDiv a b = ⌈a / b⌉` for `b > 0`. -/
def ceilDiv (a b : Nat) : Nat := (a + b - 1) / b

/-- ASCII whitespace test matching Python `str.strip`'s default set
(restricted to the ASCII range, which is all the spec exercises). -/
def pyIsSpace (c : Char) : Bool :=
  c == ' ' || c == '\t' || c == '\n' || c == '\r' || c == '\x0b' || c == '\x0c'

/-- Python `str.strip()`: drop leading and trailing whitespace. -/
def pyStrip (s : String) : String :=
  ⟨((s.data.dropWhile pyIsSpace).reverse.dropWhile pyIsSpace).reverse⟩

/-- The base64 alphabet, by index (RFC 4648, as used by `base64.b64encode`). -/
def b64char (n : Nat) : Char :=
  if n < 26 then Char.ofNat (65 + n)
  else if n < 52 then Char.ofNat (97 + (n - 26))
  else if n < 62 then Char.ofNat (48 + (n - 52))
  else if n = 62 then '+' else '/'

/-- Inverse of the base64 alphabet; `none` for characters outside it. -/
def b64val (c : Char) : Option Nat :=
  let n := c.toNat
  if 65 ≤ n ∧ n ≤ 90 then some (n - 65)
  else if 97 ≤ n ∧ n ≤ 122 then some (26 + (n - 97))
  else if 48 ≤ n ∧ n ≤ 57 then some (52 + (n - 48))
  else if n = 43 then some 62
  else if n = 47 then some 63
  else none

/-- Base64 encoding of a byte list, 3 bytes to 4 characters with `=`
padding, exactly as `base64.b64encode`. -/
def b64encodeBytes : List Nat → List Char
  | [] => []
  | [a] => [b64char (a / 4), b64char (a % 4 * 16), '=', '=']
  | [a, b] => [b64char (a / 4), b64char (a % 4 * 16 + b / 16), b64char (b % 16 * 4), '=']
  | a :: b :: c :: rest =>
      b64char (a / 4) :: b64char (a % 4 * 16 + b / 16) :: b64char (b % 16 * 4 + c / 64) ::
        b64char (c % 64) :: b64encodeBytes rest

/-- Strict base64 decoding: accepts exactly the strings `b64encodeBytes`
produces (4-character groups, `=` padding only at the very end). -/
def b64decodeChars : List Char → Option (List Nat)
  | [] => some []
  | c1 :: c2 :: c3 :: c4 :: rest =>
      match b64val c1, b64val c2 with
      | some v1, some v2 =>
        if c3 = '=' then
          if c4 = '=' ∧ rest = [] ∧ v2 % 16 = 0 then some [v1 * 4 + v2 / 16] else none
        else
          match b64val c3 with
          | some v3 =>
            if c4 = '=' then
              if rest = [] ∧ v3 % 4 = 0 then
                some [v1 * 4 + v2 / 16, v2 % 16 * 16 + v3 / 4]
              else none
            else
              match b64val c4, b64decodeChars rest with
              | some v4, some tail =>
                  some ((v1 * 4 + v2 / 16) :: (v2 % 16 * 16 + v3 / 4) :: (v3 % 4 * 64 + v4) :: tail)
              | _, _ => none
          | none => none
      | _, _ => none
  | _ => none

/-- Base64 decoding of a string (inverse direction of the transport
encoding used by the source). -/
def b64decodeStr (s : String) : Option (List Nat) := b64decodeChars s.data

/-- Little-endian 16-bit field (Python `struct` format `<H`). -/
def u16le (n : Nat) : List Nat := [n % 256, n / 256 % 256]

/-- Little-endian 32-bit field (Python `struct` format `<L`). -/
def u32le (n : Nat) : List Nat :=
  [n % 256, n / 256 % 256, n / 65536 % 256, n / 16777216 % 256]

/-- ASCII bytes of a literal magic string. -/
def asciiBytes (s : String) : List Nat := s.data.map Char.toNat

/-- The 44-byte canonical WAV header written by Python's `wave` module for
mono 16-bit PCM: RIFF size, `WAVE`, `fmt ` chunk (PCM, 1 channel, rate,
byte rate `2*rate`, block align 2, 16 bits), `data` chunk size. -/
def wavHeader (dataLen rate : Nat) : List Nat :=
  asciiBytes "RIFF" ++ u32le (36 + dataLen) ++ asciiBytes "WAVE" ++ asciiBytes "fmt " ++
    u32le 16 ++ u16le 1 ++ u16le 1 ++ u32le rate ++ u32le (2 * rate) ++ u16le 2 ++
    u16le 16 ++ asciiBytes "data" ++ u32le dataLen

/-- WAV container produced by `wave.open(..,"wb")` with 1 channel, width 2,
the given frame rate and `writeframes(pcm)`.  `none` models the exceptions
the `wave` module raises before producing output: `wave.Error` for a
non-positive frame rate and `struct.error` when a `<L` header field
(frame rate, byte rate `2*rate`, or the RIFF/data sizes) exceeds 2^32-1. -/
def wavEncode (pcm : List Nat) (rate : Nat) : Option (List Nat) :=
  if 0 < rate ∧ 2 * rate < 2 ^ 32 ∧ 36 + pcm.length < 2 ^ 32 then
    some (wavHeader pcm.length rate ++ pcm)
  else none

/-- Read a little-endian 32-bit value from the head of a byte list. -/
def readU32 : List Nat → Nat
  | a :: b :: c :: d :: _ => a + 256 * b + 65536 * c + 16777216 * d
  | _ => 0

/-- Read a little-endian 16-bit value from the head of a byte list. -/
def readU16 : List Nat → Nat
  | a :: b :: _ => a + 256 * b
  | _ => 0

/-- Parser for the canonical 44-byte-header mono 16-bit PCM WAV
container: validates the RIFF magic and size, the `WAVE` form, the 16-byte
PCM `fmt ` chunk (format 1, 1 channel, byte rate twice the sample rate,
block align 2, bit depth 16) and the `data` chunk size, returning the raw
PCM bytes and the sample rate. -/
def wavParse (bs : List Nat) : Option (List Nat × Nat) :=
  match bs with
  | r1 :: r2 :: r3 :: r4 :: s1 :: s2 :: s3 :: s4 :: w1 :: w2 :: w3 :: w4 ::
      f1 :: f2 :: f3 :: f4 :: cs1 :: cs2 :: cs3 :: cs4 :: fmt1 :: fmt2 :: nch1 :: nch2 ::
      sr1 :: sr2 :: sr3 :: sr4 :: br1 :: br2 :: br3 :: br4 :: ba1 :: ba2 :: bd1 :: bd2 ::
      d1 :: d2 :: d3 :: d4 :: l1 :: l2 :: l3 :: l4 :: rest =>
    if [r1, r2, r3, r4] = asciiBytes "RIFF" ∧ [w1, w2, w3, w4] = asciiBytes "WAVE" ∧
        [f1, f2, f3, f4] = asciiBytes "fmt " ∧ readU32 [cs1, cs2, cs3, cs4] = 16 ∧
        readU16 [fmt1, fmt2] = 1 ∧ readU16 [nch1, nch2] = 1 ∧
        readU32 [br1, br2, br3, br4] = 2 * readU32 [sr1, sr2, sr3, sr4] ∧
        readU16 [ba1, ba2] = 2 ∧ readU16 [bd1, bd2] = 16 ∧
        [d1, d2, d3, d4] = asciiBytes "data" ∧
        rest.length = readU32 [l1, l2, l3, l4] ∧
        readU32 [s1, s2, s3, s4] = 36 + readU32 [l1, l2, l3, l4] then
      some (rest, readU32 [sr1, sr2, sr3, sr4])
    else none
  | _ => none

/-- Model of `pcm_to_wav_base64` (source lines 31-39): raw PCM bytes to a
base64-encoded WAV string.  `none` models the exception propagated out of
the `wave`/`struct` machinery for out-of-range inputs (see `wavEncode`). -/
def pcm_to_wav_base64 (pcm_data : List Nat) (sample_rate : Nat) : Option String :=
  (wavEncode pcm_data sample_rate).map fun ws => ⟨b64encodeBytes ws⟩

/-- Parsed JSON body of a successful REST response: `data.get("text", "")`
(missing field modelled as `""`) and `data.get("total_time", 0)`. -/
structure RespBody where
  text : String
  total_time : Nat
deriving DecidableEq

/-- Outcome of the single HTTP POST inside `transcribe_with_wisprflow`:
a parsed response with its status code, an `asyncio.TimeoutError`, or any
other exception raised by the network stack. -/
inductive HttpResult
  | response (status : Nat) (body : RespBody)
  | timeoutError
  | otherError (msg : String)
deriving DecidableEq

/-- Result of calling a Python function: the returned value, together
with the name of an exception if one escaped instead of a return. -/
structure CallResult where
  retval : Option String
  raised : Option String
deriving DecidableEq

/-- Model of `transcribe_with_wisprflow` (source lines 42-99).  The API key and the
HTTP outcome are inputs of the model.  Faithful control flow: the key
check returns `None` first; `duration_s = len(audio)/(sample_rate*2)`
raises `ZeroDivisionError` for rate 0; `pcm_to_wav_base64` sits *outside*
the `try` block, so its exceptions escape; inside the `try`, a 200
response returns the stripped text (or `None` when empty), and every
non-200 status, timeout, or other exception returns `None`. -/
def transcribe_with_wisprflow (audio_data : List Nat) (sample_rate : Nat)
    (api_key : String) (outcome : HttpResult) : CallResult :=
  if api_key = "" then ⟨none, none⟩
  else if sample_rate = 0 then ⟨none, some "ZeroDivisionError"⟩
  else
    match pcm_to_wav_base64 audio_data sample_rate with
    | none => ⟨none, some "StructError"⟩
    | some _ =>
      match outcome with
      | .response status body =>
          if status = 200 then
            let text := pyStrip body.text
            ⟨if text = "" then none else some text, none⟩
          else ⟨none, none⟩
      | .timeoutError => ⟨none, none⟩
      | .otherError _ => ⟨none, none⟩

/-- Event kinds from `livekit.agents.stt`. -/
inductive SpeechEventType
  | FINAL_TRANSCRIPT
  | INTERIM_TRANSCRIPT
deriving DecidableEq

/-- One recognition alternative: text plus language tag. -/
structure SpeechData where
  text : String
  language : String
deriving DecidableEq

/-- A transcript event yielded to the caller. -/
structure SpeechEvent where
  type : SpeechEventType
  alternatives : List SpeechData
deriving DecidableEq

/-- The `if text: yield SpeechEvent(FINAL_TRANSCRIPT, [SpeechData(text, "ka")])`
pattern of the batch node (source lines 178-187 and 199-205): an event is
produced only for a truthy (non-empty) transcription result. -/
def eventIfText (r : Option String) : List SpeechEvent :=
  match r with
  | some t =>
      if t = "" then []
      else [⟨SpeechEventType.FINAL_TRANSCRIPT, [⟨t, "ka"⟩]⟩]
  | none => []

/-- The 5-second chunk threshold of `WisprFlowSTTNode.process`, in byte
units of 16 kHz mono 16-bit PCM (5 s x 16000 Hz x 2 bytes). -/
def CHUNK_UNITS : Nat := 160000

/-- The chunking loop of `WisprFlowSTTNode.process` (source lines 130-205),
in byte-unit time (see the file header).  State: remaining resampled
frames (each frame is its 16 kHz PCM byte string), the monotonic clock
`now`, `chunk_start`, and `pcm_buffer`.  `outcomes` supplies the HTTP
outcome of each successive REST call.  Per frame: extend the buffer; if
`elapsed >= CHUNK_SECONDS` and the buffer is non-empty, call
`transcribe_with_wisprflow`, yield an event for a truthy result, reset the
buffer and the timer.  At stream end a non-empty remainder is transcribed
the same way.  Returns (dispatched chunks, yielded events, escaped
exception): the node has no exception handler, so an exception raised by
a transcription call (see `transcribe_with_wisprflow`) ends the stream. -/
def sttLoop (api_key : String) (T : Nat) :
    List (List Nat) → Nat → Nat → List Nat → List HttpResult →
      List (List Nat) × List SpeechEvent × Option String
  | [], _, _, pcm_buffer, outcomes =>
    if pcm_buffer ≠ [] then
      let r := transcribe_with_wisprflow pcm_buffer 16000 api_key
        (outcomes.headD .timeoutError)
      match r.raised with
      | some e => ([pcm_buffer], [], some e)
      | none => ([pcm_buffer], eventIfText r.retval, none)
    else ([], [], none)
  | data :: rest, now, chunk_start, pcm_buffer, outcomes =>
    let now' := now + data.length
    let buf' := pcm_buffer ++ data
    if T ≤ now' - chunk_start ∧ 0 < buf'.length then
      let r := transcribe_with_wisprflow buf' 16000 api_key
        (outcomes.headD .timeoutError)
      match r.raised with
      | some e => ([buf'], [], some e)
      | none =>
        let rec_result := sttLoop api_key T rest now' now' [] outcomes.tail
        (buf' :: rec_result.1, eventIfText r.retval ++ rec_result.2.1, rec_result.2.2)
    else sttLoop api_key T rest now' chunk_start buf' outcomes

/-- Model of `WisprFlowSTTNode.process`: run the chunking loop from the initial
state (empty buffer, timer started at stream start). -/
def WisprFlowSTTNode_process (api_key : String) (frames : List (List Nat))
    (outcomes : List HttpResult) : List (List Nat) × List SpeechEvent × Option String :=
  sttLoop api_key CHUNK_UNITS frames 0 0 [] outcomes

/-- Total byte length of a frame stream (equals its audio duration in
byte units). -/
def totalBytes (frames : List (List Nat)) : Nat := (frames.map List.length).sum

/-- Per-chunk view of the batch node's events: chunk `i` contributes the
event (if any) determined by its own transcription outcome alone. -/
def chunkEvents (api_key : String) : List (List Nat) → List HttpResult → List SpeechEvent
  | [], _ => []
  | d :: ds, outcomes =>
      eventIfText (transcribe_with_wisprflow d 16000 api_key
        (outcomes.headD .timeoutError)).retval ++ chunkEvents api_key ds outcomes.tail

/-- A server-to-client WebSocket message as the source reads it:
`msg.get("status")`, `msg.get("text")` (missing modelled as `""`, which is
falsy exactly like a missing key), and `msg.get("final")` (missing
modelled as `false`). -/
structure SMsg where
  status : String
  text : String
  final : Bool
deriving DecidableEq

/-- A client-to-server WebSocket message.  The JSON `duration` field of an
append is the float `durationBytes / 32000` seconds; the model carries the
exact byte length instead of the rounded float. -/
inductive ClientMsg
  | auth (languages : List String)
  | append (audio : String) (position : Nat) (durationBytes : Nat)
  | commit (total_packets : Nat)
deriving DecidableEq

/-- The non-blocking poll after each append (source lines 281-300):
at most one inbound message per send; a `text`-status message with truthy
text yields a final or interim event according to its own `final` flag. -/
def pollEvents (m : Option SMsg) : List SpeechEvent :=
  match m with
  | none => []
  | some msg =>
      if msg.status = "text" ∧ msg.text ≠ "" then
        if msg.final then [⟨SpeechEventType.FINAL_TRANSCRIPT, [⟨msg.text, "ka"⟩]⟩]
        else [⟨SpeechEventType.INTERIM_TRANSCRIPT, [⟨msg.text, "ka"⟩]⟩]
      else []

/-- The post-commit drain loop (source lines 308-327): each `text`-status
message with truthy text yields a FINAL_TRANSCRIPT event (regardless of
its `final` flag) and the loop stops after one whose flag is set; `info`
messages are skipped; an `error` message stops the loop; the end of the
input list models the 5 s receive timeout. -/
def drainLoop : List SMsg → List SpeechEvent
  | [] => []
  | m :: rest =>
      if m.status = "text" ∧ m.text ≠ "" then
        ⟨SpeechEventType.FINAL_TRANSCRIPT, [⟨m.text, "ka"⟩]⟩ ::
          (if m.final then [] else drainLoop rest)
      else if m.status = "info" then drainLoop rest
      else if m.status = "error" then []
      else drainLoop rest

/-- The send loop of `WisprFlowWebSocketSTT.process` (source lines
253-300): per resampled frame, WAV/base64-encode it, send an `append`
carrying `packet_count` as position, bump the counter, then poll.
Returns (messages sent, events yielded, final `packet_count`, normal
completion).  A `False` completion models `pcm_to_wav_base64` raising
(see `wavEncode`), which aborts the loop before that frame's send. -/
def wsSendLoop : List (List Nat) → List (Option SMsg) → Nat →
    List ClientMsg × List SpeechEvent × Nat × Bool
  | [], _, packet_count => ([], [], packet_count, true)
  | pcm :: rest, polls, packet_count =>
    match pcm_to_wav_base64 pcm 16000 with
    | none => ([], [], packet_count, false)
    | some wav_b64 =>
      let r := wsSendLoop rest polls.tail (packet_count + 1)
      (ClientMsg.append wav_b64 packet_count pcm.length :: r.1,
        pollEvents (polls.headD none) ++ r.2.1, r.2.2)

/-- Result of one run of the streaming client: the client-to-server
messages sent, the events yielded, and the name of an exception escaping
to the caller.  The source wraps the whole connection in
`except Exception` (lines 329-330), so `raised` is `none` on every path. -/
structure WsResult where
  sent : List ClientMsg
  events : List SpeechEvent
  raised : Option String
deriving DecidableEq

/-- Model of `WisprFlowWebSocketSTT.process` (source lines 220-330).  Inputs: the
API key, the single authentication acknowledgment, the resampled frames
(16 kHz PCM byte strings), the per-send poll results, and the drain-phase
messages.  Control flow: empty key returns immediately; the auth message
is sent and the ack checked (`status != "auth"` logs and returns — no
exception); then the send loop runs, a single `commit` with the final
`packet_count` is sent on input exhaustion, and the drain loop collects
remaining events.  An encoding failure mid-send skips commit and drain
(the exception is swallowed by the outer handler). -/
def WisprFlowWebSocketSTT_process (api_key : String) (auth_resp : SMsg)
    (frames : List (List Nat)) (polls : List (Option SMsg)) (drain : List SMsg) :
    WsResult :=
  if api_key = "" then ⟨[], [], none⟩
  else if auth_resp.status ≠ "auth" then ⟨[ClientMsg.auth ["ka"]], [], none⟩
  else
    let r := wsSendLoop frames polls 0
    if r.2.2.2 then
      ⟨ClientMsg.auth ["ka"] :: r.1 ++ [ClientMsg.commit r.2.2.1],
        r.2.1 ++ drainLoop drain, none⟩
    else ⟨ClientMsg.auth ["ka"] :: r.1, r.2.1, none⟩

/-- The positions carried by the `append` messages of a sent trace. -/
def appendPositions (ms : List ClientMsg) : List Nat :=
  ms.filterMap fun m =>
    match m with
    | ClientMsg.append _ p _ => some p
    | _ => none

/-- The `total_packets` values carried by the `commit` messages of a
sent trace. -/
def commitTotals (ms : List ClientMsg) : List Nat :=
  ms.filterMap fun m =>
    match m with
    | ClientMsg.commit t => some t
    | _ => none

/-- Under in-range inputs, WAV encoding succeeds and produces the header
plus the raw PCM, base64-encoded. -/
theorem pcm_to_wav_base64_eq (pcm : List Nat) (rate : Nat) (h1 : 0 < rate)
    (h2 : 2 * rate < 2 ^ 32) (h3 : 36 + pcm.length < 2 ^ 32) :
    pcm_to_wav_base64 pcm rate = some ⟨b64encodeBytes (wavHeader pcm.length rate ++ pcm)⟩ := by
  simp only [pcm_to_wav_base64, wavEncode]
  rw [if_pos ⟨h1, h2, h3⟩]
  rfl

/-- Helper: on a non-success status, a timeout, or another network
failure, the call returns `None` with nothing raised. -/
theorem transcribe_failure_eq_none (audio : List Nat) (rate : Nat) (key : String)
    (outcome : HttpResult) (h1 : 0 < rate) (h2 : 2 * rate < 2 ^ 32)
    (h3 : 36 + audio.length < 2 ^ 32)
    (hfail : (∃ s b, outcome = .response s b ∧ s ≠ 200) ∨ outcome = .timeoutError ∨
      ∃ e, outcome = .otherError e) :
    transcribe_with_wisprflow audio rate key outcome = ⟨none, none⟩ := by
  unfold transcribe_with_wisprflow
  by_cases hkey : key = ""
  · simp [hkey]
  · rw [if_neg hkey, if_neg (by omega : ¬ rate = 0), pcm_to_wav_base64_eq audio rate h1 h2 h3]
    rcases hfail with ⟨s, b, rfl, hs⟩ | rfl | ⟨e, rfl⟩
    · simp [hs]
    · rfl
    · rfl

/-- C6 (amended): on a non-success HTTP status, a timeout, or any other
network failure, `transcribe_with_wisprflow` returns `None` with no
exception raised (the error is only logged); no `TranscriptionRequestError`
exists in the code.  In-range bounds keep the WAV encoding (which sits
outside the `try`) from raising. -/
theorem transcribe_failure_returns_none (audio : List Nat) (rate : Nat) (key : String)
    (outcome : HttpResult) (h1 : 0 < rate) (h2 : 2 * rate < 2 ^ 32)
    (h3 : 36 + audio.length < 2 ^ 32)
    (hfail : (∃ s b, outcome = .response s b ∧ s ≠ 200) ∨ outcome = .timeoutError ∨
      ∃ e, outcome = .otherError e) :
    transcribe_with_wisprflow audio rate key outcome = ⟨none, none⟩ :=
  transcribe_failure_eq_none audio rate key outcome h1 h2 h3 hfail

/-- Witness for `transcribe_failure_returns_none` at an HTTP 500 response. -/
theorem transcribe_failure_returns_none_witness :
    0 < 16000 ∧ 2 * 16000 < 2 ^ 32 ∧ 36 + ([] : List Nat).length < 2 ^ 32 ∧
      transcribe_with_wisprflow [] 16000 "k" (.response 500 ⟨"", 0⟩) = ⟨none, none⟩ :=
  ⟨by decide, by decide, by decide,
    transcribe_failure_returns_none [] 16000 "k" (.response 500 ⟨"", 0⟩) (by decide)
      (by decide) (by decide) (Or.inl ⟨500, ⟨"", 0⟩, rfl, by decide⟩)⟩

/-- C6 (counterexample): a concrete HTTP 500 response makes
`transcribe_with_wisprflow` return `None` without raising anything, so no
`TranscriptionRequestError` is ever surfaced, contrary to the claim. -/
theorem transcribe_http500_counterexample :
    (transcribe_with_wisprflow [] 16000 "k" (.response 500 ⟨"", 0⟩)).retval = none ∧
      (transcribe_with_wisprflow [] 16000 "k" (.response 500 ⟨"", 0⟩)).raised = none :=
  ⟨rfl, rfl⟩

/-- Helper: an HTTP-success response with empty (post-strip) text makes
the call return `None` normally. -/
theorem transcribe_empty_eq_none (audio : List Nat) (rate : Nat) (key : String)
    (body : RespBody) (h1 : 0 < rate) (h2 : 2 * rate < 2 ^ 32)
    (h3 : 36 + audio.length < 2 ^ 32) (hempty : pyStrip body.text = "") :
    transcribe_with_wisprflow audio rate key (.response 200 body) = ⟨none, none⟩ := by
  unfold transcribe_with_wisprflow
  by_cases hkey : key = ""
  · simp [hkey]
  · rw [if_neg hkey, if_neg (by omega : ¬ rate = 0), pcm_to_wav_base64_eq audio rate h1 h2 h3]
    simp [hempty]

/-- C8: an HTTP-success response whose text field strips to the empty
string (covering both empty and missing text) makes the call return the
no-text outcome `None` normally, with no exception. -/
theorem transcribe_empty_text_no_error (audio : List Nat) (rate : Nat) (key : String)
    (body : RespBody) (h1 : 0 < rate) (h2 : 2 * rate < 2 ^ 32)
    (h3 : 36 + audio.length < 2 ^ 32) (hempty : pyStrip body.text = "") :
    transcribe_with_wisprflow audio rate key (.response 200 body) = ⟨none, none⟩ :=
  transcribe_empty_eq_none audio rate key body h1 h2 h3 hempty

/-- Witness for `transcribe_empty_text_no_error`, instantiated at the
spec's end-to-end scenario: 80000 bytes of silence at 16 kHz with the
server reporting empty text yield no text and no error. -/
theorem transcribe_empty_text_no_error_witness :
    0 < 16000 ∧ 2 * 16000 < 2 ^ 32 ∧ 36 + (List.replicate 80000 0).length < 2 ^ 32 ∧
      pyStrip ("" : String) = "" ∧
      transcribe_with_wisprflow (List.replicate 80000 0) 16000 "k"
        (.response 200 ⟨"", 0⟩) = ⟨none, none⟩ :=
  ⟨by decide, by decide, by rw [List.length_replicate]; decide, by decide,
    transcribe_empty_text_no_error (List.replicate 80000 0) 16000 "k" ⟨"", 0⟩
      (by decide) (by decide) (by rw [List.length_replicate]; decide) (by decide)⟩

/-- C9 (amended): for in-range inputs (positive sample rate with `2*rate`
and the WAV size fields below 2^32), `transcribe_with_wisprflow` never
lets an exception escape, and returns `None` on a missing API key, on
every failure outcome, and on an empty transcript alike — so the caller
cannot tell a failed request from a no-speech result. -/
theorem transcribe_never_raises (audio : List Nat) (rate : Nat) (key : String)
    (outcome : HttpResult) (h1 : 0 < rate) (h2 : 2 * rate < 2 ^ 32)
    (h3 : 36 + audio.length < 2 ^ 32) :
    (transcribe_with_wisprflow audio rate key outcome).raised = none ∧
      (key = "" → (transcribe_with_wisprflow audio rate key outcome).retval = none) ∧
      ((∃ s b, outcome = .response s b ∧ s ≠ 200) ∨ outcome = .timeoutError ∨
          (∃ e, outcome = .otherError e) →
        (transcribe_with_wisprflow audio rate key outcome).retval = none) ∧
      (∀ b, pyStrip b.text = "" →
        (transcribe_with_wisprflow audio rate key (.response 200 b)).retval = none) := by
  refine ⟨?_, ?_, ?_, ?_⟩
  · by_cases hkey : key = ""
    · simp [transcribe_with_wisprflow, hkey]
    · unfold transcribe_with_wisprflow
      rw [if_neg hkey, if_neg (by omega : ¬ rate = 0),
        pcm_to_wav_base64_eq audio rate h1 h2 h3]
      rcases outcome with ⟨s, b⟩ | _ | e
      · by_cases hs : s = 200 <;> simp [hs]
      · rfl
      · rfl
  · intro hkey
    simp [transcribe_with_wisprflow, hkey]
  · intro hfail
    rw [transcribe_failure_eq_none audio rate key outcome h1 h2 h3 hfail]
  · intro b hb
    rw [transcribe_empty_eq_none audio rate key b h1 h2 h3 hb]

/-- Witness for `transcribe_never_raises` at a concrete timeout outcome. -/
theorem transcribe_never_raises_witness :
    0 < 16000 ∧ 2 * 16000 < 2 ^ 32 ∧ 36 + ([1, 2] : List Nat).length < 2 ^ 32 ∧
      (transcribe_with_wisprflow [1, 2] 16000 "k" .timeoutError).raised = none ∧
      (transcribe_with_wisprflow [1, 2] 16000 "k" .timeoutError).retval = none :=
  ⟨by decide, by decide, by decide,
    (transcribe_never_raises [1, 2] 16000 "k" .timeoutError (by decide) (by decide)
      (by decide)).1,
    (transcribe_never_raises [1, 2] 16000 "k" .timeoutError (by decide) (by decide)
      (by decide)).2.2.1 (Or.inr (Or.inl rfl))⟩

/-- C9 (counterexample): at sample rate 0 the claim's "never propagates an
exception" fails — `duration_s = len(audio)/(sample_rate*2)` divides by
zero before any network activity, and the exception escapes the function. -/
theorem transcribe_rate_zero_raises :
    (transcribe_with_wisprflow [] 0 "k" .timeoutError).raised = some "ZeroDivisionError" :=
  rfl

/-- C4 (amended): when the API key is present and the single
authentication acknowledgment does not indicate success, the streaming
client sends only the auth message — zero `append` messages — yields no
events, and terminates silently with no exception (the failure is only
logged); no `AuthenticationError` is surfaced. -/
theorem ws_auth_failure_no_appends (key : String) (auth_resp : SMsg)
    (frames : List (List Nat)) (polls : List (Option SMsg)) (drain : List SMsg)
    (hkey : key ≠ "") (hauth : auth_resp.status ≠ "auth") :
    WisprFlowWebSocketSTT_process key auth_resp frames polls drain =
      ⟨[ClientMsg.auth ["ka"]], [], none⟩ := by
  unfold WisprFlowWebSocketSTT_process
  rw [if_neg hkey, if_pos hauth]

/-- Witness for `ws_auth_failure_no_appends` at a concrete rejected ack. -/
theorem ws_auth_failure_no_appends_witness :
    ("k" : String) ≠ "" ∧ (SMsg.mk "error" "" false).status ≠ "auth" ∧
      WisprFlowWebSocketSTT_process "k" ⟨"error", "", false⟩ [[0, 0]] [] [] =
        ⟨[ClientMsg.auth ["ka"]], [], none⟩ :=
  ⟨by decide, by decide,
    ws_auth_failure_no_appends "k" ⟨"error", "", false⟩ [[0, 0]] [] []
      (by decide) (by decide)⟩

/-- C4 (counterexample): on a rejected auth ack the run sends no appends
but also raises nothing — there is no `AuthenticationError` surfaced to
the caller, contrary to the claim (the source logs and `return`s). -/
theorem ws_auth_failure_counterexample :
    appendPositions (WisprFlowWebSocketSTT_process "k" ⟨"error", "", false⟩
        [[0, 0]] [] []).sent = [] ∧
      (WisprFlowWebSocketSTT_process "k" ⟨"error", "", false⟩ [[0, 0]] [] []).raised
        = none :=
  ⟨rfl, rfl⟩

/-- C5 (counterexample): a drain-phase message with `final = false` is
emitted as a FINAL_TRANSCRIPT event, contrary to the claim that every
event is classified according to the message's own `final` flag. -/
theorem ws_drain_misclassification_counterexample :
    (WisprFlowWebSocketSTT_process "k" ⟨"auth", "", false⟩ [] []
        [⟨"text", "x", false⟩]).events =
      [⟨SpeechEventType.FINAL_TRANSCRIPT, [⟨"x", "ka"⟩]⟩] :=
  rfl

/-- C5 (amended): events from the per-send polls are classified by the
server message's `final` flag (false yields interim, true yields final),
but drain-phase text messages are always emitted as final regardless of
their flag; in the three-chunk scenario — replies "hello"/final=false
after chunk 1 and "hello world"/final=true after chunk 2, close after
commit — the client yields exactly one interim "hello" then one final
"hello world". -/
theorem ws_event_classification :
    (∀ msg : SMsg, msg.status = "text" → msg.text ≠ "" →
        pollEvents (some msg) =
          [⟨if msg.final then SpeechEventType.FINAL_TRANSCRIPT
              else SpeechEventType.INTERIM_TRANSCRIPT, [⟨msg.text, "ka"⟩]⟩]) ∧
      (∀ (msg : SMsg) (rest : List SMsg), msg.status = "text" → msg.text ≠ "" →
        drainLoop (msg :: rest) =
          ⟨SpeechEventType.FINAL_TRANSCRIPT, [⟨msg.text, "ka"⟩]⟩ ::
            (if msg.final then [] else drainLoop rest)) ∧
      (WisprFlowWebSocketSTT_process "k" ⟨"auth", "", false⟩ [[0, 0], [0, 0], [0, 0]]
          [some ⟨"text", "hello", false⟩, some ⟨"text", "hello world", true⟩, none]
          []).events =
        [⟨SpeechEventType.INTERIM_TRANSCRIPT, [⟨"hello", "ka"⟩]⟩,
          ⟨SpeechEventType.FINAL_TRANSCRIPT, [⟨"hello world", "ka"⟩]⟩] := by
  refine ⟨?_, ?_, ?_⟩
  · intro msg h1 h2
    cases hf : msg.final <;> simp [pollEvents, h1, h2, hf]
  · intro msg rest h1 h2
    cases hf : msg.final <;> simp [drainLoop, h1, h2, hf]
  · rfl

/-- Witness for `ws_event_classification` at concrete messages. -/
theorem ws_event_classification_witness :
    pollEvents (some ⟨"text", "t", false⟩) =
        [⟨SpeechEventType.INTERIM_TRANSCRIPT, [⟨"t", "ka"⟩]⟩] ∧
      drainLoop [⟨"text", "t", false⟩] =
        [⟨SpeechEventType.FINAL_TRANSCRIPT, [⟨"t", "ka"⟩]⟩] := by
  constructor
  · have h := ws_event_classification.1 ⟨"text", "t", false⟩ (by decide) (by decide)
    simpa using h
  · have h := ws_event_classification.2.1 ⟨"text", "t", false⟩ [] (by decide) (by decide)
    simpa using h

/-- Send-loop invariant: with every frame encodable, the loop completes,
its appends carry the consecutive positions `pc, pc+1, ...`, the final
packet counter is `pc + frames.length`, and no commit is sent inside. -/
theorem wsSendLoop_spec (frames : List (List Nat)) :
    ∀ (polls : List (Option SMsg)) (pc : Nat),
      (∀ f ∈ frames, 36 + f.length < 2 ^ 32) →
      appendPositions (wsSendLoop frames polls pc).1 = List.range' pc frames.length ∧
        (wsSendLoop frames polls pc).2.2.1 = pc + frames.length ∧
        (wsSendLoop frames polls pc).2.2.2 = true ∧
        commitTotals (wsSendLoop frames polls pc).1 = [] := by
  induction frames with
  | nil => intro polls pc _; exact ⟨rfl, rfl, rfl, rfl⟩
  | cons pcm rest ih =>
    intro polls pc hfit
    have henc := pcm_to_wav_base64_eq pcm 16000 (by decide) (by decide)
      (hfit pcm (List.mem_cons_self pcm rest))
    have hrest : ∀ f ∈ rest, 36 + f.length < 2 ^ 32 :=
      fun f hf => hfit f (List.mem_cons_of_mem pcm hf)
    obtain ⟨ha, hc, hok, hct⟩ := ih polls.tail (pc + 1) hrest
    unfold wsSendLoop
    rw [henc]
    refine ⟨?_, ?_, ?_, ?_⟩
    · simp only [appendPositions, List.filterMap_cons] at ha ⊢
      rw [ha, List.length_cons, List.range'_succ]
    · simp only [List.length_cons]
      rw [hc]
      omega
    · simpa using hok
    · simp only [commitTotals, List.filterMap_cons] at hct ⊢
      exact hct

/-- C3: in every run of the streaming client that authenticates and
consumes its input (every frame being WAV-encodable, which holds for any
realistic frame size), the `append` positions are exactly `0, 1, 2, ...`
with no gaps and no repeats, and the single `commit` sent after input
exhaustion carries `total_packets` equal to the number of appends. -/
theorem ws_positions_and_commit (key : String) (auth_resp : SMsg)
    (frames : List (List Nat)) (polls : List (Option SMsg)) (drain : List SMsg)
    (hkey : key ≠ "") (hauth : auth_resp.status = "auth")
    (hfit : ∀ f ∈ frames, 36 + f.length < 2 ^ 32) :
    appendPositions (WisprFlowWebSocketSTT_process key auth_resp frames polls
        drain).sent = List.range frames.length ∧
      commitTotals (WisprFlowWebSocketSTT_process key auth_resp frames polls
        drain).sent = [frames.length] := by
  obtain ⟨ha, hc, hok, hct⟩ := wsSendLoop_spec frames polls 0 hfit
  unfold WisprFlowWebSocketSTT_process
  rw [if_neg hkey, if_neg (by simp [hauth]), if_pos hok]
  constructor
  · simp only [appendPositions, List.filterMap_cons, List.filterMap_append] at ha ⊢
    rw [ha, List.range_eq_range']
    simp
  · simp only [commitTotals, List.filterMap_cons, List.filterMap_append] at hct ⊢
    rw [hct, hc]
    simp

/-- Witness for `ws_positions_and_commit` at a two-frame run. -/
theorem ws_positions_and_commit_witness :
    ("k" : String) ≠ "" ∧ (SMsg.mk "auth" "" false).status = "auth" ∧
      (∀ f ∈ ([[0, 0], [0, 0]] : List (List Nat)), 36 + f.length < 2 ^ 32) ∧
      appendPositions (WisprFlowWebSocketSTT_process "k" ⟨"auth", "", false⟩
        [[0, 0], [0, 0]] [] []).sent = List.range 2 ∧
      commitTotals (WisprFlowWebSocketSTT_process "k" ⟨"auth", "", false⟩
        [[0, 0], [0, 0]] [] []).sent = [2] :=
  ⟨by decide, rfl, by decide,
    (ws_positions_and_commit "k" ⟨"auth", "", false⟩ [[0, 0], [0, 0]] [] []
      (by decide) rfl (by decide)).1,
    (ws_positions_and_commit "k" ⟨"auth", "", false⟩ [[0, 0], [0, 0]] [] []
      (by decide) rfl (by decide)).2⟩

/-- Every event built by `eventIfText` carries non-empty text tagged "ka". -/
theorem eventIfText_shape (r : Option String) :
    ∀ ev ∈ eventIfText r, ∃ t, t ≠ "" ∧ ev.alternatives = [⟨t, "ka"⟩] := by
  intro ev hev
  rcases r with _ | t
  · simp [eventIfText] at hev
  · by_cases ht : t = ""
    · simp [eventIfText, ht] at hev
    · simp [eventIfText, ht] at hev
      exact ⟨t, ht, by rw [hev]⟩

/-- Every event of the batch chunking loop carries non-empty text tagged
"ka", from any state. -/
theorem sttLoop_events_shape (key : String) (T : Nat) (frames : List (List Nat)) :
    ∀ (now cs : Nat) (buf : List Nat) (outcomes : List HttpResult),
      ∀ ev ∈ (sttLoop key T frames now cs buf outcomes).2.1,
        ∃ t, t ≠ "" ∧ ev.alternatives = [⟨t, "ka"⟩] := by
  induction frames with
  | nil =>
    intro now cs buf outcomes ev hev
    unfold sttLoop at hev
    by_cases hbuf : buf ≠ []
    · rw [if_pos hbuf] at hev
      rcases hraised : (transcribe_with_wisprflow buf 16000 key
          (outcomes.headD .timeoutError)).raised with _ | e
      all_goals simp only [hraised] at hev
      · exact eventIfText_shape _ ev hev
      · simp at hev
    · rw [if_neg hbuf] at hev
      simp at hev
  | cons data rest ih =>
    intro now cs buf outcomes ev hev
    unfold sttLoop at hev
    by_cases hcond : T ≤ now + data.length - cs ∧ 0 < (buf ++ data).length
    · rw [if_pos hcond] at hev
      rcases hraised : (transcribe_with_wisprflow (buf ++ data) 16000 key
          (outcomes.headD .timeoutError)).raised with _ | e
      all_goals simp only [hraised] at hev
      · simp only [List.mem_append] at hev
        rcases hev with hev | hev
        · exact eventIfText_shape _ ev hev
        · exact ih _ _ _ _ ev hev
      · simp at hev
    · rw [if_neg hcond] at hev
      exact ih _ _ _ _ ev hev

/-- Every event built by the per-send poll carries non-empty text tagged
"ka". -/
theorem pollEvents_shape (m : Option SMsg) :
    ∀ ev ∈ pollEvents m, ∃ t, t ≠ "" ∧ ev.alternatives = [⟨t, "ka"⟩] := by
  intro ev hev
  rcases m with _ | msg
  · simp [pollEvents] at hev
  · by_cases hc : msg.status = "text" ∧ msg.text ≠ ""
    · rw [pollEvents, if_pos hc] at hev
      cases hf : msg.final <;> rw [hf] at hev <;> simp at hev <;>
        exact ⟨msg.text, hc.2, by rw [hev]⟩
    · rw [pollEvents, if_neg hc] at hev
      simp at hev

/-- Every event of the drain loop carries non-empty text tagged "ka". -/
theorem drainLoop_events_shape (drain : List SMsg) :
    ∀ ev ∈ drainLoop drain, ∃ t, t ≠ "" ∧ ev.alternatives = [⟨t, "ka"⟩] := by
  induction drain with
  | nil => intro ev hev; simp [drainLoop] at hev
  | cons m rest ih =>
    intro ev hev
    unfold drainLoop at hev
    by_cases hc : m.status = "text" ∧ m.text ≠ ""
    · rw [if_pos hc, List.mem_cons] at hev
      rcases hev with hev | hev
      · exact ⟨m.text, hc.2, by rw [hev]⟩
      · cases hf : m.final <;> rw [hf] at hev
        · exact ih ev hev
        · simp at hev
    · rw [if_neg hc] at hev
      by_cases hinfo : m.status = "info"
      · rw [if_pos hinfo] at hev; exact ih ev hev
      · rw [if_neg hinfo] at hev
        by_cases herr : m.status = "error"
        · rw [if_pos herr] at hev; simp at hev
        · rw [if_neg herr] at hev; exact ih ev hev

/-- Every event of the WebSocket send loop carries non-empty text tagged
"ka". -/
theorem wsSendLoop_events_shape (frames : List (List Nat)) :
    ∀ (polls : List (Option SMsg)) (pc : Nat),
      ∀ ev ∈ (wsSendLoop frames polls pc).2.1,
        ∃ t, t ≠ "" ∧ ev.alternatives = [⟨t, "ka"⟩] := by
  induction frames with
  | nil => intro polls pc ev hev; simp [wsSendLoop] at hev
  | cons pcm rest ih =>
    intro polls pc ev hev
    unfold wsSendLoop at hev
    rcases henc : pcm_to_wav_base64 pcm 16000 with _ | s
    all_goals simp only [henc] at hev
    · simp at hev
    · simp only [List.mem_append] at hev
      rcases hev with hev | hev
      · exact pollEvents_shape _ ev hev
      · exact ih _ _ ev hev

/-- C10: every `SpeechEvent` yielded by either client — the batch node or
the streaming client, over all inputs — carries non-empty text with
language tag "ka": both silently drop results with empty or missing text. -/
theorem events_nonempty_georgian (key : String) (frames : List (List Nat))
    (outcomes : List HttpResult) (key2 : String) (auth_resp : SMsg)
    (frames2 : List (List Nat)) (polls : List (Option SMsg)) (drain : List SMsg) :
    (∀ ev ∈ (WisprFlowSTTNode_process key frames outcomes).2.1,
        ∃ t, t ≠ "" ∧ ev.alternatives = [⟨t, "ka"⟩]) ∧
      (∀ ev ∈ (WisprFlowWebSocketSTT_process key2 auth_resp frames2 polls drain).events,
        ∃ t, t ≠ "" ∧ ev.alternatives = [⟨t, "ka"⟩]) := by
  constructor
  · exact fun ev hev => sttLoop_events_shape key CHUNK_UNITS frames 0 0 [] outcomes ev hev
  · intro ev hev
    unfold WisprFlowWebSocketSTT_process at hev
    by_cases hkey : key2 = ""
    · rw [if_pos hkey] at hev; simp at hev
    · rw [if_neg hkey] at hev
      by_cases hauth : auth_resp.status ≠ "auth"
      · rw [if_pos hauth] at hev; simp at hev
      · rw [if_neg hauth] at hev
        by_cases hok : (wsSendLoop frames2 polls 0).2.2.2
        all_goals simp only [hok, if_true, if_false, Bool.false_eq_true] at hev
        · simp only [List.mem_append] at hev
          rcases hev with hev | hev
          · exact wsSendLoop_events_shape frames2 polls 0 ev hev
          · exact drainLoop_events_shape drain ev hev
        · exact wsSendLoop_events_shape frames2 polls 0 ev hev

/-- With the fixed 16 kHz rate and an in-range buffer, a REST call never
raises, whatever the HTTP outcome. -/
theorem transcribe16k_raised_none (a : List Nat) (k : String) (o : HttpResult)
    (hfit : 36 + a.length < 2 ^ 32) :
    (transcribe_with_wisprflow a 16000 k o).raised = none := by
  unfold transcribe_with_wisprflow
  by_cases hk : k = ""
  · simp [hk]
  · rw [if_neg hk, if_neg (by decide : ¬ (16000 : Nat) = 0),
      pcm_to_wav_base64_eq a 16000 (by decide) (by decide) hfit]
    rcases o with ⟨s, b⟩ | _ | e
    · by_cases hs : s = 200 <;> simp [hs]
    · rfl
    · rfl

/-- Whether a REST call raises does not depend on the HTTP outcome (the
only raising paths — rate 0 and WAV-field overflow — run before the
request). -/
theorem transcribe_raised_outcome_indep (a : List Nat) (r : Nat) (k : String)
    (o o' : HttpResult) :
    (transcribe_with_wisprflow a r k o).raised =
      (transcribe_with_wisprflow a r k o').raised := by
  unfold transcribe_with_wisprflow
  by_cases hk : k = ""
  · simp [hk]
  · by_cases hr : r = 0
    · simp [hk, hr]
    · rw [if_neg hk, if_neg hk, if_neg hr, if_neg hr]
      rcases henc : pcm_to_wav_base64 a r with _ | s
      · rfl
      · rcases o with ⟨s1, b1⟩ | _ | e1 <;> rcases o' with ⟨s2, b2⟩ | _ | e2 <;>
          first
          | rfl
          | (by_cases hs1 : s1 = 200 <;> by_cases hs2 : s2 = 200 <;> simp [hs1, hs2])
          | (by_cases hs1 : s1 = 200 <;> simp [hs1])
          | (by_cases hs2 : s2 = 200 <;> simp [hs2])

/-- The list of dispatched chunks of the batch loop does not depend on
the HTTP outcomes of the transcription calls. -/
theorem sttLoop_dispatch_indep (key : String) (T : Nat) (frames : List (List Nat)) :
    ∀ (now cs : Nat) (buf : List Nat) (outs outs' : List HttpResult),
      (sttLoop key T frames now cs buf outs).1 =
        (sttLoop key T frames now cs buf outs').1 := by
  induction frames with
  | nil =>
    intro now cs buf outs outs'
    unfold sttLoop
    by_cases hbuf : buf ≠ []
    · rw [if_pos hbuf, if_pos hbuf]
      rcases h1 : (transcribe_with_wisprflow buf 16000 key
          (outs.headD .timeoutError)).raised with _ | e1 <;>
        rcases h2 : (transcribe_with_wisprflow buf 16000 key
          (outs'.headD .timeoutError)).raised with _ | e2 <;>
        simp only [h1, h2]
    · rw [if_neg hbuf, if_neg hbuf]
  | cons data rest ih =>
    intro now cs buf outs outs'
    unfold sttLoop
    by_cases hcond : T ≤ now + data.length - cs ∧ 0 < (buf ++ data).length
    · rw [if_pos hcond, if_pos hcond]
      have hr := transcribe_raised_outcome_indep (buf ++ data) 16000 key
        (outs.headD .timeoutError) (outs'.headD .timeoutError)
      rcases h1 : (transcribe_with_wisprflow (buf ++ data) 16000 key
          (outs.headD .timeoutError)).raised with _ | e1
      · rw [h1] at hr
        simp only [h1, ← hr,
          ih (now + data.length) (now + data.length) [] outs.tail outs'.tail]
      · rw [h1] at hr
        simp only [h1, ← hr]
    · rw [if_neg hcond, if_neg hcond]
      exact ih _ _ _ outs outs'

/-- Under the WAV size bound, the batch loop's events decompose per chunk:
chunk `i`'s contribution is determined by its own HTTP outcome alone. -/
theorem sttLoop_events_eq_chunkEvents (key : String) (T : Nat) (frames : List (List Nat)) :
    ∀ (now cs : Nat) (buf : List Nat) (outs : List HttpResult),
      buf.length + totalBytes frames + 36 < 2 ^ 32 →
      (sttLoop key T frames now cs buf outs).2.1 =
        chunkEvents key (sttLoop key T frames now cs buf outs).1 outs := by
  induction frames with
  | nil =>
    intro now cs buf outs hfit
    have hb : 36 + buf.length < 2 ^ 32 := by
      simp only [totalBytes, List.map_nil, List.sum_nil] at hfit
      omega
    unfold sttLoop
    by_cases hbuf : buf ≠ []
    · rw [if_pos hbuf]
      have hraised := transcribe16k_raised_none buf key (outs.headD .timeoutError) hb
      simp only [hraised]
      simp [chunkEvents]
    · rw [if_neg hbuf]
      simp [chunkEvents]
  | cons data rest ih =>
    intro now cs buf outs hfit
    have hlen : (buf ++ data).length + totalBytes rest + 36 < 2 ^ 32 := by
      simp only [List.length_append]
      simp only [totalBytes, List.map_cons, List.sum_cons] at hfit ⊢
      omega
    unfold sttLoop
    by_cases hcond : T ≤ now + data.length - cs ∧ 0 < (buf ++ data).length
    · rw [if_pos hcond]
      have hraised := transcribe16k_raised_none (buf ++ data) key
        (outs.headD .timeoutError) (by omega)
      have hrec := ih (now + data.length) (now + data.length) [] outs.tail
        (by simpa using (by omega : totalBytes rest + 36 < 2 ^ 32))
      simp only [hraised, hrec, chunkEvents]
    · rw [if_neg hcond]
      exact ih _ _ _ outs hlen

/-- Under the WAV size bound, the loop completes without an exception and
the concatenation of the dispatched chunks is the buffer followed by all
remaining frame bytes: nothing is dropped or duplicated. -/
theorem sttLoop_join (key : String) (T : Nat) (frames : List (List Nat)) :
    ∀ (now cs : Nat) (buf : List Nat) (outs : List HttpResult),
      buf.length + totalBytes frames + 36 < 2 ^ 32 →
      (sttLoop key T frames now cs buf outs).1.flatten = buf ++ frames.flatten ∧
        (sttLoop key T frames now cs buf outs).2.2 = none := by
  induction frames with
  | nil =>
    intro now cs buf outs hfit
    have hb : 36 + buf.length < 2 ^ 32 := by
      simp only [totalBytes, List.map_nil, List.sum_nil] at hfit
      omega
    unfold sttLoop
    by_cases hbuf : buf ≠ []
    · rw [if_pos hbuf]
      have hraised := transcribe16k_raised_none buf key (outs.headD .timeoutError) hb
      simp only [hraised]
      simp
    · rw [if_neg hbuf]
      simp at hbuf
      simp [hbuf]
  | cons data rest ih =>
    intro now cs buf outs hfit
    have hlen : (buf ++ data).length + totalBytes rest + 36 < 2 ^ 32 := by
      simp only [List.length_append]
      simp only [totalBytes, List.map_cons, List.sum_cons] at hfit ⊢
      omega
    unfold sttLoop
    by_cases hcond : T ≤ now + data.length - cs ∧ 0 < (buf ++ data).length
    · rw [if_pos hcond]
      have hraised := transcribe16k_raised_none (buf ++ data) key
        (outs.headD .timeoutError) (by omega)
      obtain ⟨hj, hok⟩ := ih (now + data.length) (now + data.length) [] outs.tail
        (by simpa using (by omega : totalBytes rest + 36 < 2 ^ 32))
      simp only [hraised]
      constructor
      · simp only [List.flatten_cons]
        rw [hj]
        simp
      · exact hok
    · rw [if_neg hcond]
      obtain ⟨hj, hok⟩ := ih (now + data.length) cs (buf ++ data) outs hlen
      constructor
      · rw [hj]
        simp
      · exact hok

/-- C7: a failed REST transcription for one chunk does not abort the
stream.  The dispatched chunks are identical whatever the per-chunk HTTP
outcomes (so the buffer keeps being reset and later chunks keep being
dispatched), and the yielded events decompose chunk by chunk, each
depending only on that chunk's own outcome — a chunk that fails simply
contributes no event while every other chunk still can.  The size bound
keeps the (uncaught) WAV encoder from aborting the generator. -/
theorem stt_chunk_failure_isolated (key : String) (frames : List (List Nat))
    (outs outs' : List HttpResult) (hfit : totalBytes frames + 36 < 2 ^ 32) :
    (WisprFlowSTTNode_process key frames outs).1 =
        (WisprFlowSTTNode_process key frames outs').1 ∧
      (WisprFlowSTTNode_process key frames outs).2.1 =
        chunkEvents key (WisprFlowSTTNode_process key frames outs).1 outs := by
  constructor
  · exact sttLoop_dispatch_indep key CHUNK_UNITS frames 0 0 [] outs outs'
  · exact sttLoop_events_eq_chunkEvents key CHUNK_UNITS frames 0 0 [] outs
      (by simpa using hfit)

/-- Witness for `stt_chunk_failure_isolated`: a 500 on the (only) chunk
versus a success. -/
theorem stt_chunk_failure_isolated_witness :
    totalBytes [[1, 2]] + 36 < 2 ^ 32 ∧
      (WisprFlowSTTNode_process "k" [[1, 2]] [HttpResult.response 500 ⟨"", 0⟩]).1 =
        (WisprFlowSTTNode_process "k" [[1, 2]] [HttpResult.response 200 ⟨"ok", 0⟩]).1 ∧
      (WisprFlowSTTNode_process "k" [[1, 2]] [HttpResult.response 500 ⟨"", 0⟩]).2.1 =
        chunkEvents "k" (WisprFlowSTTNode_process "k" [[1, 2]]
          [HttpResult.response 500 ⟨"", 0⟩]).1 [HttpResult.response 500 ⟨"", 0⟩] :=
  ⟨by decide,
    (stt_chunk_failure_isolated "k" [[1, 2]] [HttpResult.response 500 ⟨"", 0⟩]
      [HttpResult.response 200 ⟨"ok", 0⟩] (by decide)).1,
    (stt_chunk_failure_isolated "k" [[1, 2]] [HttpResult.response 500 ⟨"", 0⟩]
      [HttpResult.response 200 ⟨"ok", 0⟩] (by decide)).2⟩

/-- Ceiling division of zero vanishes: `ceilDiv 0 k = 0`. -/
theorem ceilDiv_zero_left (k : Nat) : ceilDiv 0 k = 0 := by
  unfold ceilDiv
  rcases k with _ | k
  · rfl
  · exact Nat.div_eq_of_lt (by omega)

/-- Ceiling division collapses to one: `ceilDiv j k = 1` when `0 < j ≤ k`. -/
theorem ceilDiv_eq_one (j k : Nat) (h0 : 0 < j) (hk : j ≤ k) : ceilDiv j k = 1 := by
  unfold ceilDiv
  have h : j + k - 1 = (j - 1) + k := by omega
  rw [h, Nat.add_div_right _ (by omega), Nat.div_eq_of_lt (by omega)]

/-- Adding the divisor bumps the quotient: `ceilDiv (k + m) k = 1 + ceilDiv m k` for positive `k`. -/
theorem ceilDiv_add_self_left (k m : Nat) (hk : 0 < k) :
    ceilDiv (k + m) k = 1 + ceilDiv m k := by
  unfold ceilDiv
  have h : k + m + k - 1 = (m + k - 1) + k := by omega
  rw [h, Nat.add_div_right _ hk]
  omega

/-- Scaling invariance: `ceilDiv (n*b) (k*b) = ceilDiv n k` for positive
`b` and `k`. -/
theorem ceilDiv_mul_right (n k b : Nat) (hb : 0 < b) (hk : 0 < k) :
    ceilDiv (n * b) (k * b) = ceilDiv n k := by
  rcases Nat.eq_zero_or_pos n with rfl | hn
  · rw [Nat.zero_mul, ceilDiv_zero_left, ceilDiv_zero_left]
  · have hpos1 : ceilDiv (n * b) (k * b) = (n * b - 1) / (k * b) + 1 := by
      unfold ceilDiv
      have h : n * b + k * b - 1 = (n * b - 1) + k * b := by
        have hb1 : b ≤ n * b := Nat.le_mul_of_pos_left b hn
        omega
      rw [h, Nat.add_div_right _ (by positivity)]
    have hpos2 : ceilDiv n k = (n - 1) / k + 1 := by
      unfold ceilDiv
      have h : n + k - 1 = (n - 1) + k := by omega
      rw [h, Nat.add_div_right _ hk]
    rw [hpos1, hpos2]
    have hdiv : (n * b - 1) / (k * b) = (n - 1) / k := by
      have hqr := Nat.div_add_mod (n - 1) k
      have hr : (n - 1) % k < k := Nat.mod_lt _ hk
      apply Nat.div_eq_of_lt_le
      · calc (n - 1) / k * (k * b) = k * ((n - 1) / k) * b := by ring
          _ ≤ (n - 1) * b := by
              have : k * ((n - 1) / k) ≤ n - 1 := by omega
              exact Nat.mul_le_mul_right b this
          _ ≤ n * b - 1 := by
              have hb1 : b ≤ n * b := Nat.le_mul_of_pos_left b hn
              have : (n - 1) * b = n * b - b := by
                rw [Nat.sub_mul, Nat.one_mul]
              omega
      · have hn1 : n ≤ k * ((n - 1) / k + 1) := by
          have : n - 1 < k * ((n - 1) / k) + k := by omega
          have hmul : k * ((n - 1) / k + 1) = k * ((n - 1) / k) + k := by ring
          omega
        calc n * b - 1 < n * b := by
              have hb1 : b ≤ n * b := Nat.le_mul_of_pos_left b hn
              omega
          _ ≤ k * ((n - 1) / k + 1) * b := Nat.mul_le_mul_right b hn1
          _ = ((n - 1) / k + 1) * (k * b) := by ring
    rw [hdiv]

/-- Total bytes of a uniform stream. -/
theorem totalBytes_uniform (frames : List (List Nat)) (b : Nat)
    (hu : ∀ d ∈ frames, d.length = b) : totalBytes frames = frames.length * b := by
  induction frames with
  | nil => simp [totalBytes]
  | cons d rest ih =>
    simp only [totalBytes, List.map_cons, List.sum_cons, List.length_cons] at ih ⊢
    rw [hu d (List.mem_cons_self _ _), ih (fun x hx => hu x (List.mem_cons_of_mem _ hx))]
    ring

/-- Chunk-count invariant for uniform frames: from a state with `j`
frames (each of `b` bytes, `j < k`) accumulated since the last dispatch
and threshold `T = k*b`, processing `n` further frames dispatches exactly
`ceilDiv (j + n) k` chunks. -/
theorem sttLoop_count_uniform (key : String) (b k : Nat) (hb : 0 < b) (hk : 0 < k)
    (hT : k * b + 36 < 2 ^ 32) (frames : List (List Nat)) :
    ∀ (j now cs : Nat) (buf : List Nat) (outs : List HttpResult),
      (∀ d ∈ frames, d.length = b) →
      j < k →
      buf.length = j * b →
      cs ≤ now →
      now - cs = j * b →
      (sttLoop key (k * b) frames now cs buf outs).1.length =
        ceilDiv (j + frames.length) k := by
  induction frames with
  | nil =>
    intro j now cs buf outs hu hjk hbuf hcs hnow
    unfold sttLoop
    by_cases hbufne : buf ≠ []
    · rw [if_pos hbufne]
      have hjb : j * b ≤ k * b := Nat.mul_le_mul_right b (by omega)
      have hfit : 36 + buf.length < 2 ^ 32 := by omega
      have hraised := transcribe16k_raised_none buf key (outs.headD .timeoutError) hfit
      simp only [hraised]
      have hj : 0 < j := by
        rcases Nat.eq_zero_or_pos j with rfl | h
        · simp at hbuf
          exact absurd hbuf hbufne
        · exact h
      rw [List.length_nil, Nat.add_zero, ceilDiv_eq_one j k hj (Nat.le_of_lt hjk)]
      rfl
    · rw [if_neg hbufne]
      have hj : j = 0 := by
        have hbe : buf = [] := not_not.mp hbufne
        rw [hbe] at hbuf
        have hz : j * b = 0 := by simpa using hbuf.symm
        rcases Nat.mul_eq_zero.mp hz with h | h
        · exact h
        · omega
      rw [hj, List.length_nil, Nat.add_zero, ceilDiv_zero_left]
  | cons data rest ih =>
    intro j now cs buf outs hu hjk hbuf hcs hnow
    have hdata : data.length = b := hu data (List.mem_cons_self _ _)
    have hrest : ∀ d ∈ rest, d.length = b := fun d hd => hu d (List.mem_cons_of_mem _ hd)
    have hsucc : (j + 1) * b = j * b + b := by ring
    unfold sttLoop
    by_cases hdisp : j + 1 = k
    · have hkb' : k * b = j * b + b := by rw [← hdisp]; ring
      have hcond : k * b ≤ now + data.length - cs ∧ 0 < (buf ++ data).length := by
        constructor
        · rw [hdata]; omega
        · simp [hdata]; omega
      rw [if_pos hcond]
      have hfit : 36 + (buf ++ data).length < 2 ^ 32 := by
        have : (buf ++ data).length = j * b + b := by simp [hdata, hbuf]
        omega
      have hraised := transcribe16k_raised_none (buf ++ data) key
        (outs.headD .timeoutError) hfit
      simp only [hraised]
      have hrec := ih 0 (now + data.length) (now + data.length) [] outs.tail hrest hk
        (by simp) (Nat.le_refl _) (by omega)
      simp only [List.length_cons]
      rw [hrec, Nat.zero_add]
      have hidx : j + (rest.length + 1) = k + rest.length := by omega
      rw [hidx, ceilDiv_add_self_left k rest.length hk]
      omega
    · have hlt : j + 1 < k := by omega
      have hmul : (j + 1) * b < k * b := by
        exact Nat.mul_lt_mul_of_lt_of_le hlt (Nat.le_refl b) hb
      have hcond : ¬ (k * b ≤ now + data.length - cs ∧ 0 < (buf ++ data).length) := by
        rintro ⟨h1, _⟩
        rw [hdata] at h1
        omega
      rw [if_neg hcond]
      have hrec := ih (j + 1) (now + data.length) cs (buf ++ data) outs hrest hlt
        (by simp [hdata, hbuf]; omega) (by omega) (by rw [hdata]; omega)
      rw [hrec]
      simp only [List.length_cons]
      congr 1
      omega

/-- C1 (amended): for the time-boxed chunker with its 5-second threshold,
(i) when the frames are uniform — each carrying the same positive number
of bytes `b` whose duration divides the threshold evenly (`T = k*b`), as
with the typical 10 ms LiveKit frames — the number of dispatched chunks
(= transcription calls) equals `ceil(D/T)` for total duration `D > 0` and
is `0` for `D = 0`; and (ii) for every frame stream whose total size
keeps the WAV data field in 32-bit range, the in-order concatenation of
all dispatched chunks equals the full resampled input byte sequence, any
non-empty remainder being dispatched at stream end regardless of elapsed
time. -/
theorem stt_chunk_count_and_bytes (key : String) (outs : List HttpResult)
    (frames : List (List Nat)) (b k : Nat) (hb : 0 < b)
    (hkb : CHUNK_UNITS = k * b) (hu : ∀ d ∈ frames, d.length = b) :
    (WisprFlowSTTNode_process key frames outs).1.length =
        ceilDiv (totalBytes frames) CHUNK_UNITS ∧
      ∀ (frames' : List (List Nat)) (outs' : List HttpResult),
        totalBytes frames' + 36 < 2 ^ 32 →
        (WisprFlowSTTNode_process key frames' outs').1.flatten = frames'.flatten := by
  constructor
  · have hk : 0 < k := by
      rcases Nat.eq_zero_or_pos k with rfl | h
      · rw [Nat.zero_mul] at hkb
        exact absurd hkb (by decide)
      · exact h
    have hT : k * b + 36 < 2 ^ 32 := by
      rw [← hkb]
      decide
    unfold WisprFlowSTTNode_process
    rw [hkb]
    rw [sttLoop_count_uniform key b k hb hk hT frames 0 0 0 [] outs hu hk
      (by simp) (Nat.le_refl 0) (by simp)]
    rw [totalBytes_uniform frames b hu,
      ceilDiv_mul_right frames.length k b hb hk, Nat.zero_add]
  · intro frames' outs' hfit'
    exact (sttLoop_join key CHUNK_UNITS frames' 0 0 [] outs' (by simpa using hfit')).1

/-- Witness for `stt_chunk_count_and_bytes`: one 160000-byte frame (5 s)
dispatches exactly one chunk, and small streams are concatenated whole. -/
theorem stt_chunk_count_and_bytes_witness :
    0 < 160000 ∧ CHUNK_UNITS = 1 * 160000 ∧
      (∀ d ∈ [List.replicate 160000 7], d.length = 160000) ∧
      (WisprFlowSTTNode_process "k" [List.replicate 160000 7] []).1.length =
        ceilDiv (totalBytes [List.replicate 160000 7]) CHUNK_UNITS ∧
      totalBytes [[1, 2]] + 36 < 2 ^ 32 ∧
      (WisprFlowSTTNode_process "k" [[1, 2]] []).1.flatten = ([[1, 2]] : List (List Nat)).flatten :=
  ⟨by decide, by decide,
    by intro d hd; rw [List.mem_singleton] at hd; rw [hd, List.length_replicate],
    (stt_chunk_count_and_bytes "k" [] [List.replicate 160000 7] 160000 1 (by decide)
      (by decide)
      (by intro d hd; rw [List.mem_singleton] at hd; rw [hd, List.length_replicate])).1,
    by decide,
    (stt_chunk_count_and_bytes "k" [] [List.replicate 160000 7] 160000 1 (by decide)
      (by decide)
      (by intro d hd; rw [List.mem_singleton] at hd; rw [hd, List.length_replicate])).2
      [[1, 2]] [] (by decide)⟩

/-- A single frame at least one threshold long is dispatched as one chunk
(the elapsed check fires only at the frame boundary). -/
theorem sttLoop_single_large (key : String) (outs : List HttpResult) (d : List Nat)
    (hlen : CHUNK_UNITS ≤ d.length) (hfit : 36 + d.length < 2 ^ 32) :
    (WisprFlowSTTNode_process key [d] outs).1 = [d] := by
  unfold WisprFlowSTTNode_process sttLoop
  rw [if_pos ⟨by simpa using hlen,
    by simpa using Nat.lt_of_lt_of_le (show 0 < CHUNK_UNITS by decide) hlen⟩]
  have hraised := transcribe16k_raised_none ([] ++ d) key (outs.headD .timeoutError)
    (by simpa using hfit)
  simp only [hraised]
  simp [sttLoop]

/-- C1 (counterexample): a single 320000-byte frame — 10 seconds of audio
arriving as one frame — is dispatched as ONE chunk, but the claim demands
`ceil(10s/5s) = 2`: the elapsed-time check only runs at frame boundaries,
so a chunk can exceed the threshold and the count falls short of
`ceil(D/T)`. -/
theorem stt_chunk_count_counterexample :
    (WisprFlowSTTNode_process "k" [List.replicate 320000 0] []).1.length = 1 ∧
      ceilDiv (totalBytes [List.replicate 320000 0]) CHUNK_UNITS = 2 := by
  constructor
  · rw [sttLoop_single_large "k" [] (List.replicate 320000 0)
      (by rw [List.length_replicate]; decide) (by rw [List.length_replicate]; decide)]
    rfl
  · simp only [totalBytes, List.map_cons, List.map_nil, List.sum_cons, List.sum_nil,
      List.length_replicate]
    decide

/-- The base64 alphabet map inverts the character map on `0..63`. -/
theorem b64val_b64char : ∀ n, n < 64 → b64val (b64char n) = some n := by decide

/-- No alphabet character is the padding character. -/
theorem b64char_ne_pad (n : Nat) : b64char n ≠ '=' := by
  by_cases h : n < 64
  · revert h
    revert n
    decide
  · unfold b64char
    rw [if_neg (by omega), if_neg (by omega), if_neg (by omega), if_neg (by omega)]
    decide

/-- Base64 round-trip: decoding an encoded byte list recovers it. -/
theorem b64_roundtrip : ∀ bs : List Nat, (∀ x ∈ bs, x < 256) →
    b64decodeChars (b64encodeBytes bs) = some bs := by
  intro bs
  induction bs using b64encodeBytes.induct with
  | case1 => intro _; rfl
  | case2 a =>
    intro hlt
    have ha : a < 256 := hlt a (by simp)
    have h1 := b64val_b64char (a / 4) (by omega)
    have h2 := b64val_b64char (a % 4 * 16) (by omega)
    simp only [b64encodeBytes, b64decodeChars, h1, h2]
    rw [if_pos trivial, if_pos ⟨trivial, trivial, by omega⟩]
    refine congrArg some ?_
    have e1 : a / 4 * 4 + a % 4 * 16 / 16 = a := by omega
    rw [e1]
  | case3 a b =>
    intro hlt
    have ha : a < 256 := hlt a (by simp)
    have hb : b < 256 := hlt b (by simp)
    have h1 := b64val_b64char (a / 4) (by omega)
    have h2 := b64val_b64char (a % 4 * 16 + b / 16) (by omega)
    have h3 := b64val_b64char (b % 16 * 4) (by omega)
    simp only [b64encodeBytes, b64decodeChars, h1, h2, h3]
    rw [if_neg (b64char_ne_pad _)]
    rw [if_pos trivial, if_pos ⟨trivial, by omega⟩]
    refine congrArg some ?_
    have e1 : a / 4 * 4 + (a % 4 * 16 + b / 16) / 16 = a := by omega
    have e2 : (a % 4 * 16 + b / 16) % 16 * 16 + b % 16 * 4 / 4 = b := by omega
    rw [e1, e2]
  | case4 a b c rest ih =>
    intro hlt
    have ha : a < 256 := hlt a (by simp)
    have hb : b < 256 := hlt b (by simp)
    have hc : c < 256 := hlt c (by simp)
    have hrest : ∀ x ∈ rest, x < 256 := fun x hx => hlt x (by simp [hx])
    have h1 := b64val_b64char (a / 4) (by omega)
    have h2 := b64val_b64char (a % 4 * 16 + b / 16) (by omega)
    have h3 := b64val_b64char (b % 16 * 4 + c / 64) (by omega)
    have h4 := b64val_b64char (c % 64) (by omega)
    simp only [b64encodeBytes, b64decodeChars, h1, h2, h3, h4]
    rw [if_neg (b64char_ne_pad _), if_neg (b64char_ne_pad _)]
    rw [ih hrest]
    refine congrArg some ?_
    have e1 : a / 4 * 4 + (a % 4 * 16 + b / 16) / 16 = a := by omega
    have e2 : (a % 4 * 16 + b / 16) % 16 * 16 + (b % 16 * 4 + c / 64) / 4 = b := by omega
    have e3 : (b % 16 * 4 + c / 64) % 4 * 64 + c % 64 = c := by omega
    rw [e1, e2, e3]

/-- The WAV container written out as an explicit byte sequence. -/
theorem wavBytes_cons (L R : Nat) (pcm : List Nat) :
    wavHeader L R ++ pcm =
      82 :: 73 :: 70 :: 70 ::
      (36 + L) % 256 :: (36 + L) / 256 % 256 :: (36 + L) / 65536 % 256 ::
        (36 + L) / 16777216 % 256 ::
      87 :: 65 :: 86 :: 69 ::
      102 :: 109 :: 116 :: 32 ::
      16 :: 0 :: 0 :: 0 ::
      1 :: 0 :: 1 :: 0 ::
      R % 256 :: R / 256 % 256 :: R / 65536 % 256 :: R / 16777216 % 256 ::
      2 * R % 256 :: 2 * R / 256 % 256 :: 2 * R / 65536 % 256 :: 2 * R / 16777216 % 256 ::
      2 :: 0 :: 16 :: 0 ::
      100 :: 97 :: 116 :: 97 ::
      L % 256 :: L / 256 % 256 :: L / 65536 % 256 :: L / 16777216 % 256 :: pcm := rfl

/-- Every byte of the WAV container is below 256 when the PCM payload is. -/
theorem wavBytes_lt256 (L R : Nat) (pcm : List Nat) (hpcm : ∀ x ∈ pcm, x < 256) :
    ∀ x ∈ wavHeader L R ++ pcm, x < 256 := by
  intro x hx
  rw [wavBytes_cons] at hx
  simp only [List.mem_cons] at hx
  rcases hx with rfl | rfl | rfl | rfl | rfl | rfl | rfl | rfl | rfl | rfl | rfl | rfl | rfl | rfl | rfl | rfl | rfl | rfl | rfl | rfl | rfl | rfl | rfl | rfl | rfl | rfl | rfl | rfl | rfl | rfl | rfl | rfl | rfl | rfl | rfl | rfl | rfl | rfl | rfl | rfl | rfl | rfl | rfl | rfl | hx
  all_goals first
    | omega
    | exact hpcm x hx

/-- Parsing the WAV container built from in-range inputs recovers the PCM
bytes and the sample rate. -/
theorem wavParse_roundtrip (pcm : List Nat) (rate : Nat) (h1 : 0 < rate)
    (h2 : 2 * rate < 2 ^ 32) (h3 : 36 + pcm.length < 2 ^ 32) :
    wavParse (wavHeader pcm.length rate ++ pcm) = some (pcm, rate) := by
  rw [wavBytes_cons]
  simp only [wavParse, readU32, readU16]
  rw [if_pos (by
    refine ⟨?_, ?_, ?_, ?_, ?_, ?_, ?_, ?_, ?_, ?_, ?_, ?_⟩ <;> first | trivial | omega)]
  refine congrArg some ?_
  refine congrArg (Prod.mk pcm) ?_
  omega

/-- C2 (amended): for every raw PCM byte sequence and every positive
sample rate in range for the 32-bit WAV header fields (`2*rate < 2^32`,
data below `2^32 - 36` bytes — always true for real audio),
`pcm_to_wav_base64` succeeds, and base64-decoding its output and parsing
the WAV container reproduces exactly the original PCM bytes and sample
rate; determinism and statelessness hold by construction (the encoder is
a pure function of its two arguments). -/
theorem pcm_to_wav_roundtrip (pcm : List Nat) (rate : Nat) (h1 : 0 < rate)
    (h2 : 2 * rate < 2 ^ 32) (h3 : 36 + pcm.length < 2 ^ 32)
    (hpcm : ∀ x ∈ pcm, x < 256) :
    ∃ s : String, pcm_to_wav_base64 pcm rate = some s ∧
      (b64decodeStr s).bind wavParse = some (pcm, rate) := by
  refine ⟨⟨b64encodeBytes (wavHeader pcm.length rate ++ pcm)⟩,
    pcm_to_wav_base64_eq pcm rate h1 h2 h3, ?_⟩
  unfold b64decodeStr
  rw [show (String.mk (b64encodeBytes (wavHeader pcm.length rate ++ pcm))).data
    = b64encodeBytes (wavHeader pcm.length rate ++ pcm) from rfl]
  rw [b64_roundtrip _ (wavBytes_lt256 pcm.length rate pcm hpcm), Option.some_bind]
  exact wavParse_roundtrip pcm rate h1 h2 h3

/-- Witness for `pcm_to_wav_roundtrip` at 3 PCM bytes and 16 kHz. -/
theorem pcm_to_wav_roundtrip_witness :
    0 < 16000 ∧ 2 * 16000 < 2 ^ 32 ∧ 36 + ([1, 2, 3] : List Nat).length < 2 ^ 32 ∧
      (∀ x ∈ ([1, 2, 3] : List Nat), x < 256) ∧
      ∃ s : String, pcm_to_wav_base64 [1, 2, 3] 16000 = some s ∧
        (b64decodeStr s).bind wavParse = some ([1, 2, 3], 16000) :=
  ⟨by decide, by decide, by decide, by decide,
    pcm_to_wav_roundtrip [1, 2, 3] 16000 (by decide) (by decide) (by decide) (by decide)⟩

/-- C2 (counterexample): at sample rate `2^32` — a positive sample rate —
the encoder produces no WAV at all (Python's `struct.pack` raises
`struct.error` on the 32-bit frame-rate field), so the round-trip law
does not hold for *every* positive sample rate. -/
theorem pcm_to_wav_base64_rate_overflow :
    pcm_to_wav_base64 [0, 0] 4294967296 = none := rfl

/-- Witness for `events_nonempty_georgian`: a batch run and a streaming
run that each emit one event. -/
theorem events_nonempty_georgian_witness :
    (SpeechEvent.mk SpeechEventType.FINAL_TRANSCRIPT [⟨"hi", "ka"⟩] ∈
        (WisprFlowSTTNode_process "k" [[1, 2]] [HttpResult.response 200 ⟨"hi", 0⟩]).2.1) ∧
      (∃ t, t ≠ "" ∧ (SpeechEvent.mk SpeechEventType.FINAL_TRANSCRIPT
        [⟨"hi", "ka"⟩]).alternatives = [⟨t, "ka"⟩]) ∧
      (SpeechEvent.mk SpeechEventType.FINAL_TRANSCRIPT [⟨"x", "ka"⟩] ∈
        (WisprFlowWebSocketSTT_process "k" ⟨"auth", "", false⟩ [] []
          [⟨"text", "x", false⟩]).events) ∧
      (∃ t, t ≠ "" ∧ (SpeechEvent.mk SpeechEventType.FINAL_TRANSCRIPT
        [⟨"x", "ka"⟩]).alternatives = [⟨t, "ka"⟩]) :=
  ⟨by decide,
    (events_nonempty_georgian "k" [[1, 2]] [HttpResult.response 200 ⟨"hi", 0⟩] "k"
      ⟨"auth", "", false⟩ [] [] [⟨"text", "x", false⟩]).1
      (SpeechEvent.mk SpeechEventType.FINAL_TRANSCRIPT [⟨"hi", "ka"⟩]) (by decide),
    by decide,
    (events_nonempty_georgian "k" [[1, 2]] [HttpResult.response 200 ⟨"hi", 0⟩] "k"
      ⟨"auth", "", false⟩ [] [] [⟨"text", "x", false⟩]).2
      (SpeechEvent.mk SpeechEventType.FINAL_TRANSCRIPT [⟨"x", "ka"⟩]) (by decide)⟩
